import Mathlib

/-
  Verification of the pkglink scan - group - persist pipeline.

  The definitions below are a shallow embedding of the code in
  src/cli.js and src/find-packages.js.  JavaScript strings become
  Lean String, JS arrays become List, JS objects holding key - value
  pairs become association lists, promises and observable streams
  become explicit lists of events processed in arrival order.
  Where a helper lives outside the two source files (util/format,
  src/index.js), its definition is modelled from the spec and says so
  in its doc comment.
-/

set_option autoImplicit false

namespace Pkglink

/-! ## String and path helpers

Node path semantics are modelled for POSIX: the separator character
is the forward slash.  The regular expression in the source also
accepts a backslash separator (for Windows paths); `endsNodeMod`
models the regex faithfully, while `pathBasename`, `pathDirname` and
`pathSegments` model the POSIX `path` module. -/

/-- Boolean test that list `n` is a leading run of list `l`. -/
def leadRun {α : Type} [DecidableEq α] : List α → List α → Bool
  | [], _ => true
  | _ :: _, [] => false
  | a :: as, b :: bs => if a = b then leadRun as bs else false

/-- Boolean test that list `n` occurs contiguously inside list `l`,
modelling JavaScript `l.indexOf(n) !== -1` on strings. -/
def subList {α : Type} [DecidableEq α] (n : List α) : List α → Bool
  | [] => leadRun n []
  | b :: bs => leadRun n (b :: bs) || subList n bs

/-- Strip a leading run: `stripLead n l = some m` exactly when `l = n ++ m`. -/
def stripLead {α : Type} [DecidableEq α] : List α → List α → Option (List α)
  | [], l => some l
  | _ :: _, [] => none
  | a :: as, b :: bs => if a = b then stripLead as bs else none

/-- The distinguished directory name. -/
def nmStr : String := "node_modules"

/-- The characters of the string "node_modules". -/
def nmChars : List Char := nmStr.data

/-- The Node dirname result for a path with no separator. -/
def dotStr : String := "."

/-- The Node dirname result for a path whose only separator leads. -/
def slashStr : String := "/"

/-- The empty string. -/
def emptyStr : String := ""

/-- Character is not the POSIX path separator. -/
def notSlash (c : Char) : Bool := !(c = '/')

/-- Node (POSIX) `Path.basename`: the characters after the last slash.
Inputs in this development never carry a trailing slash. -/
def pathBasename (p : String) : String :=
  String.mk ((p.data.reverse.takeWhile notSlash).reverse)

/-- Node (POSIX) `Path.dirname`: the characters before the last slash,
"." when there is no slash, "/" when the only slash is leading. -/
def pathDirname (p : String) : String :=
  match p.data.reverse.dropWhile notSlash with
  | [] => dotStr
  | _ :: pre => if pre = [] then slashStr else String.mk (pre.reverse)

/-- Split a character list at every slash into segments. -/
def segSplit : List Char → List (List Char)
  | [] => [[]]
  | c :: rest =>
    if c = '/' then [] :: segSplit rest
    else
      match segSplit rest with
      | [] => [[c]]
      | s :: ss => (c :: s) :: ss

/-- The slash separated segments of a path string. -/
def pathSegments (p : String) : List String :=
  (segSplit p.data).map (fun l => String.mk l)

/-- Character is one of the two separators accepted by the source
regular expression ENDS_NODE_MOD_RE, `[\\\/]`. -/
def isReSep (c : Char) : Bool := c = '/' || c = '\\'

/-- The test of ENDS_NODE_MOD_RE = `/[\\\/]node_modules$/` from
src/find-packages.js line 8: the string ends in a separator followed
by "node_modules". -/
def endsNodeMod (s : String) : Bool :=
  match stripLead nmChars.reverse s.data.reverse with
  | some (c :: _) => isReSep c
  | _ => false

/-- JavaScript `s.charAt(0) === '.'`; `charAt` of the empty string is
the empty string, which is not equal to a one character string. -/
def startsWithDot (s : String) : Bool :=
  match s.data with
  | [] => false
  | c :: _ => c = '.'

/-- JavaScript `s.indexOf("node_modules") !== -1`. -/
def hasNodeModSub (s : String) : Bool := subList nmChars s.data

/-! ## Directory descent filter (src/find-packages.js lines 18 to 28) -/

/-- The fields of a readdirp directory entry used by the filter. -/
structure DirEntryInfo where
  name : String
  fullParentDir : String
deriving DecidableEq

/-- Direct translation of filterDirsNodeModPacks from
src/find-packages.js lines 18 to 28. -/
def filterDirsNodeModPacks (ei : DirEntryInfo) : Bool :=
  if startsWithDot ei.name then false
  else if ei.name = nmStr then true
  else if hasNodeModSub ei.fullParentDir then
    pathBasename ei.fullParentDir = nmStr
  else true

/-- The descent filter as claim C1 words it: written from the words of
the claim, for comparison against `filterDirsNodeModPacks`.  The claim
speaks of the parent path containing a node_modules SEGMENT. -/
def claimC1Keeps (ei : DirEntryInfo) : Bool :=
  !(startsWithDot ei.name) &&
    (ei.name = nmStr
      || ((pathSegments ei.fullParentDir).contains nmStr
            && pathBasename ei.fullParentDir = nmStr)
      || !((pathSegments ei.fullParentDir).contains nmStr))

/-! ## Package key extraction (src/find-packages.js lines 54 to 70)

The stages after the directory walk: the post filter on the parent of
the parent directory, the manifest read, the name and version check,
and the package counter. -/

/-- The fields of a readdirp file entry used by the pipeline. -/
structure EntryInfo where
  fullPath : String
  fullParentDir : String
  statDev : Nat
deriving DecidableEq

/-- The post filter of src/find-packages.js lines 54 to 56: keep an
entry when the dirname of its full parent directory matches
ENDS_NODE_MOD_RE. -/
def postFilterKeeps (ei : EntryInfo) : Bool :=
  endsNodeMod (pathDirname ei.fullParentDir)

/-- The two manifest fields the pipeline reads.  A JSON field is
either absent (none) or carries a string; JavaScript truthiness of a
string is non emptiness. -/
structure PackJson where
  name : Option String
  version : Option String
deriving DecidableEq

/-- JavaScript truthiness of an optional string field. -/
def jsTruthy : Option String → Bool
  | none => false
  | some s => !(s = emptyStr)

/-- Outcome of `fs.readJsonAsync(path, { throws: false })`.  Per the
jsonfile library, `throws: false` suppresses only JSON parse errors
(the promise resolves to null, modelled `parsed none`); an I/O error
while reading still rejects the promise (`ioError`). -/
inductive ReadJsonResult where
  | ioError : ReadJsonResult
  | parsed : Option PackJson → ReadJsonResult
deriving DecidableEq

/-- Modelled from the spec: formatDevNameVersion lives in util/format,
which is not under src/.  The spec defines the CorrelationKey as a
value derived from (deviceId, packageName, packageVersion) such that
entries on different devices can never share a key; it is modelled as
the triple itself. -/
structure DevNameVer where
  dev : Nat
  name : String
  version : String
deriving DecidableEq

/-- The object produced by the result selector of the manifest reading
mergeMap, src/find-packages.js lines 60 to 65. -/
structure EiDN where
  entryInfo : EntryInfo
  devNameVer : Option DevNameVer
deriving DecidableEq

/-- The result selector of src/find-packages.js lines 60 to 65:
`devNameVer` is the correlation key when the parsed manifest and both
its name and version fields are truthy, and null otherwise; the device
component comes from the stat of the entry. -/
def mkEiDN (ei : EntryInfo) (pack : Option PackJson) : EiDN :=
  { entryInfo := ei
    devNameVer :=
      match pack with
      | none => none
      | some p =>
        if jsTruthy p.name && jsTruthy p.version then
          some { dev := ei.statDev
                 name := p.name.getD emptyStr
                 version := p.version.getD emptyStr }
        else none }

/-- Result of running the key extraction stage over the whole stream of
post filter survivors: the entries emitted past the devNameVer filter,
the final value of rtenv.packageCount, and whether the stream ended
with an error. -/
structure ExtractOutcome where
  emitted : List EiDN
  packageCount : Nat
  errored : Bool
deriving DecidableEq

/-- The key extraction stage (src/find-packages.js lines 58 to 70) run
over a list of entries paired with the outcome of their manifest read.
A rejected read promise errors the observable chain: nothing after it
is processed and the run ends in error.  A parsed manifest failing the
name and version check is dropped by the filter on line 68; survivors
are counted on line 69. -/
def extractRun : List (EntryInfo × ReadJsonResult) → ExtractOutcome
  | [] => { emitted := [], packageCount := 0, errored := false }
  | (_, ReadJsonResult.ioError) :: _ =>
    { emitted := [], packageCount := 0, errored := true }
  | (ei, ReadJsonResult.parsed pack) :: rest =>
    let d := mkEiDN ei pack
    let o := extractRun rest
    if d.devNameVer.isSome then
      { emitted := d :: o.emitted, packageCount := o.packageCount + 1, errored := o.errored }
    else o

/-- The groupBy key projection together with the preceding filter
(src/find-packages.js lines 68 and 71): every surviving entry is keyed
by its non null devNameVer. -/
def keyedEntries (l : List EiDN) : List (DevNameVer × EntryInfo) :=
  l.filterMap (fun d => d.devNameVer.map (fun k => (k, d.entryInfo)))

/-! ## Streaming grouper (src/find-packages.js lines 71 to 78)

The rxjs `groupBy` keyed map together with the per group `reduce` into
an array: while entries arrive nothing is emitted downstream (a
`reduce` emits only when its source completes); at completion every
group emits one `[key, array]` pair.  The accumulating state is an
association list from key to the list of entries seen, in arrival
order; a groups key list preserves first appearance order. -/

/-- Look a key up in the accumulated groups. -/
def assocFind {κ α : Type} [DecidableEq κ] (k : κ) : List (κ × List α) → Option (List α)
  | [] => none
  | (k0, v) :: rest => if k0 = k then some v else assocFind k rest

/-- Append one entry to the group of its key, creating the group when
the key is new. -/
def groupUpsert {κ α : Type} [DecidableEq κ] (acc : List (κ × List α)) (k : κ) (a : α) :
    List (κ × List α) :=
  match acc with
  | [] => [(k, [a])]
  | (k0, v) :: rest =>
    if k0 = k then (k0, v ++ [a]) :: rest else (k0, v) :: groupUpsert rest k a

/-- One arrival step of the grouper: the state absorbs the entry and
nothing is emitted downstream (second component), because the per
group reduce of src/find-packages.js lines 73 to 76 emits only at
completion. -/
def grouperOnNext {κ α : Type} [DecidableEq κ] (st : List (κ × List α)) (p : κ × α) :
    List (κ × List α) × List (κ × List α) :=
  (groupUpsert st p.1 p.2, [])

/-- Run the grouper state over the whole arrival list. -/
def groupAccum {κ α : Type} [DecidableEq κ] : List (κ × α) → List (κ × List α) → List (κ × List α)
  | [], acc => acc
  | p :: rest, acc => groupAccum rest (grouperOnNext acc p).1

/-- The complete grouping of the keyed entry stream, as flushed when
the stream completes. -/
def findPackagesGroup {κ α : Type} [DecidableEq κ] (l : List (κ × α)) : List (κ × List α) :=
  groupAccum l []

/-- All entries of the arrival list carrying the given key, in arrival
order. -/
def entriesFor {κ α : Type} [DecidableEq κ] (k : κ) (l : List (κ × α)) : List α :=
  (l.filter (fun p => decide (p.1 = k))).map Prod.snd

/-- The grouped output of the whole scan pipeline after the post
filter: key extraction followed by grouping. -/
def scanPipelineGroups (input : List (EntryInfo × ReadJsonResult)) :
    List (DevNameVer × List EntryInfo) :=
  findPackagesGroup (keyedEntries (extractRun input).emitted)

/-! ## Reference store and final tasks (src/cli.js lines 123 to 189)

A JavaScript object is a value with an identity: `!==` between two
objects compares identity, not content.  A store object is therefore
modelled as an identity token paired with its content, an association
list from a key string to an array of [modPath, inode, mTimeEpoch]
tuples. -/

/-- One reference tuple [modPath, packJsonInode, packJsonMTimeEpoch]. -/
abbrev RefTuple : Type := String × Nat × Nat

/-- A JavaScript store object: identity token plus content. -/
structure RefStoreObj where
  ref : Nat
  content : List (String × List RefTuple)
deriving DecidableEq

/-- Ordering of store keys, lifted to the key - value pairs. -/
def keyLe {β : Type} (a b : String × β) : Prop := a.1 ≤ b.1

instance {β : Type} : DecidableRel (@keyLe β) := fun a b =>
  inferInstanceAs (Decidable (a.1 ≤ b.1))

instance {β : Type} : IsTotal (String × β) keyLe := ⟨fun a b => le_total a.1 b.1⟩

instance {β : Type} : IsTrans (String × β) keyLe := ⟨fun _ _ _ h1 h2 => le_trans h1 h2⟩

/-- Modelled from the spec: sortObjKeys lives in util/format, which is
not under src/.  The spec says the store is written with its keys
sorted for deterministic diffs; it is modelled as sorting the key -
value pairs by key. -/
def sortObjKeys {β : Type} (l : List (String × β)) : List (String × β) :=
  l.insertionSort keyLe

/-- The state finalTasks reads, src/cli.js: the dryrun and gen-ln-cmds
flags of argv, the current and the originally loaded store object, and
the saved byte counter. -/
structure RunEnv where
  dryrun : Bool
  genLnCmds : Bool
  existingShares : RefStoreObj
  origExistingShares : RefStoreObj
  savedByteCount : Nat
deriving DecidableEq

/-- What finalTasks (src/cli.js lines 169 to 184) writes to the refs
file: nothing in dryrun or gen-ln-cmds mode (early return on line
172); otherwise the key sorted current store content, but only when
`rtenv.existingShares !== origExistingShares`, an object identity
comparison (line 176). -/
def finalTasksWrite (s : RunEnv) : Option (List (String × List RefTuple)) :=
  if s.dryrun || s.genLnCmds then none
  else if s.existingShares.ref ≠ s.origExistingShares.ref then
    some (sortObjKeys s.existingShares.content)
  else none

/-- The refs file on disk: missing, or present with content that is
either unparseable (for example empty) or a JSON store. -/
inductive FsState where
  | missing : FsState
  | filePresent : Option (List (String × List RefTuple)) → FsState
deriving DecidableEq

/-- fs.ensureFileSync(REFS_PATH), src/cli.js line 123: creates an
empty file when the path does not exist, otherwise leaves it alone.
An empty file is not valid JSON, hence `filePresent none`. -/
def ensureFileSync (fs : FsState) : FsState :=
  match fs with
  | FsState.missing => FsState.filePresent none
  | FsState.filePresent c => FsState.filePresent c

/-- The effect of finalTasks on the refs file. -/
def applyFinalTasks (s : RunEnv) (fs : FsState) : FsState :=
  match finalTasksWrite s with
  | none => fs
  | some w => FsState.filePresent (some w)

/-- One process invocation seen through its refs file effects:
ensureFileSync at startup (line 123), then the link phase, then
finalTasks.  Modelled from the spec for the link phase: scanAndLink
lives in src/index.js, which is not under src/; per the spec, in
dryrun and gen-ln-cmds modes it performs no filesystem mutation, and
its normal mode effects stay abstract (the linkPhase parameter). -/
def cliRunFs (s : RunEnv) (linkPhase : FsState → FsState) (fs0 : FsState) : FsState :=
  let fs1 := ensureFileSync fs0
  let fs2 := if s.dryrun || s.genLnCmds then fs1 else linkPhase fs1
  applyFinalTasks s fs2

/-! ## The at most once machine (src/cli.js lines 163 to 189, 209 to 215)

cancel and finalTasks are both wrapped in R.once; cancel is registered
for SIGINT and SIGTERM, finalTasks for the EXIT event and for the
completion of the concatenated task observable.  A run is a list of
trigger firings, dispatched in order. -/

/-- The events that can invoke the two wrapped routines. -/
inductive Trigger where
  | sigint : Trigger
  | sigterm : Trigger
  | exitEvt : Trigger
  | tasksComplete : Trigger
deriving DecidableEq

/-- The mutable flags of the two R.once wrappers plus counters of how
often each body ran and how often the refs file was written. -/
structure OnceState where
  cancelCalled : Bool
  finalCalled : Bool
  cancelBodyRuns : Nat
  finalBodyRuns : Nat
  refsWrites : Nat
deriving DecidableEq

/-- The fresh state before any trigger fires. -/
def onceInit : OnceState :=
  { cancelCalled := false, finalCalled := false
    cancelBodyRuns := 0, finalBodyRuns := 0, refsWrites := 0 }

/-- R.once around cancel, src/cli.js lines 163 to 168. -/
def runCancelOnce (st : OnceState) : OnceState :=
  if st.cancelCalled then st
  else { st with cancelCalled := true, cancelBodyRuns := st.cancelBodyRuns + 1 }

/-- R.once around finalTasks, src/cli.js lines 169 to 184; the body
writes the refs file exactly when finalTasksWrite produces content. -/
def runFinalOnce (env : RunEnv) (st : OnceState) : OnceState :=
  if st.finalCalled then st
  else
    { st with
      finalCalled := true
      finalBodyRuns := st.finalBodyRuns + 1
      refsWrites := st.refsWrites + (if (finalTasksWrite env).isSome then 1 else 0) }

/-- Dispatch one trigger to the routine it is registered for,
src/cli.js lines 186 to 189 and 209 to 215. -/
def dispatchTrigger (env : RunEnv) (st : OnceState) : Trigger → OnceState
  | Trigger.sigint => runCancelOnce st
  | Trigger.sigterm => runCancelOnce st
  | Trigger.exitEvt => runFinalOnce env st
  | Trigger.tasksComplete => runFinalOnce env st

/-- Run a whole list of trigger firings from the fresh state. -/
def runTriggers (env : RunEnv) (l : List Trigger) : OnceState :=
  l.foldl (dispatchTrigger env) onceInit

/-! ## Cancellation of the scan (src/find-packages.js lines 44 to 50)

The per root readdirp stream is destroyed when cancelled$ fires, and
the data events pass through `takeWhile(() => !rtenv.cancelled)`: the
first event seen after the cancelled flag is set completes the stream,
so no entry emitted after cancellation is processed.  The events of
one run are modelled as an arrival ordered list in which the
cancellation signal may appear. -/

/-- One event of the scan stream: a file entry with the outcome of its
manifest read, or the cancellation signal. -/
inductive ScanEvent where
  | entry : EntryInfo → ReadJsonResult → ScanEvent
  | cancelSignal : ScanEvent
deriving DecidableEq

/-- Whether an event is the cancellation signal. -/
def isCancelEvt : ScanEvent → Bool
  | ScanEvent.cancelSignal => true
  | ScanEvent.entry _ _ => false

/-- The entries the scanner still processes: each entry event is let
through while the cancelled flag is clear; once the signal fires the
takeWhile completes the stream and every later event is discarded. -/
def scanSurvivors : List ScanEvent → List (EntryInfo × ReadJsonResult)
  | [] => []
  | ScanEvent.cancelSignal :: _ => []
  | ScanEvent.entry ei r :: rest => (ei, r) :: scanSurvivors rest

/-- Modelled from the spec: scanAndLink in src/index.js, not under
src/, consumes the grouped stream of findPackagesGrouped under the
cancellation signal; per the spec a cancelled run discards the
in progress groups rather than acting on partial data, so the grouper
flush of a cancelled trace is never consumed and the run yields no
groups. -/
def runGroupsAfterCancel (evs : List ScanEvent) : List (DevNameVer × List EntryInfo) :=
  if evs.any isCancelEvt then []
  else scanPipelineGroups (scanSurvivors evs)

/-! ## Lemmas about the grouper -/

theorem assocFind_upsert_self {κ α : Type} [DecidableEq κ] (acc : List (κ × List α)) (k : κ)
    (a : α) :
    assocFind k (groupUpsert acc k a) = some ((assocFind k acc).getD [] ++ [a]) := by
  induction acc with
  | nil => simp [groupUpsert, assocFind]
  | cons p rest ih =>
    obtain ⟨k0, v⟩ := p
    by_cases h : k0 = k
    · subst h
      simp [groupUpsert, assocFind]
    · simp [groupUpsert, assocFind, h, ih]

theorem assocFind_upsert_other {κ α : Type} [DecidableEq κ] (acc : List (κ × List α))
    (k0 k : κ) (a : α) (h : k0 ≠ k) :
    assocFind k (groupUpsert acc k0 a) = assocFind k acc := by
  induction acc with
  | nil => simp [groupUpsert, assocFind, h]
  | cons p rest ih =>
    obtain ⟨k1, v⟩ := p
    by_cases h1 : k1 = k0
    · subst h1
      simp [groupUpsert, assocFind, h]
    · by_cases h2 : k1 = k
      · subst h2
        simp [groupUpsert, assocFind, h1]
      · simp [groupUpsert, assocFind, h1, h2, ih]

theorem entriesFor_cons_self {κ α : Type} [DecidableEq κ] (k : κ) (p : κ × α)
    (l : List (κ × α)) (h : p.1 = k) : entriesFor k (p :: l) = p.2 :: entriesFor k l := by
  simp [entriesFor, h]

theorem entriesFor_cons_other {κ α : Type} [DecidableEq κ] (k : κ) (p : κ × α)
    (l : List (κ × α)) (h : p.1 ≠ k) : entriesFor k (p :: l) = entriesFor k l := by
  simp [entriesFor, h]

theorem assocFind_groupAccum_some {κ α : Type} [DecidableEq κ] :
    ∀ (l : List (κ × α)) (acc : List (κ × List α)) (k : κ) (v : List α),
      assocFind k acc = some v →
      assocFind k (groupAccum l acc) = some (v ++ entriesFor k l)
  | [], acc, k, v, h => by simpa [groupAccum, entriesFor] using h
  | p :: rest, acc, k, v, h => by
    by_cases hp : p.1 = k
    · have h1 : assocFind k (groupUpsert acc p.1 p.2) = some (v ++ [p.2]) := by
        rw [hp, assocFind_upsert_self, h]
        rfl
      have h2 := assocFind_groupAccum_some rest (groupUpsert acc p.1 p.2) k (v ++ [p.2]) h1
      rw [entriesFor_cons_self k p rest hp]
      simpa [groupAccum, grouperOnNext, List.append_assoc] using h2
    · have h1 : assocFind k (groupUpsert acc p.1 p.2) = some v := by
        rw [assocFind_upsert_other acc p.1 k p.2 hp, h]
      have h2 := assocFind_groupAccum_some rest (groupUpsert acc p.1 p.2) k v h1
      rw [entriesFor_cons_other k p rest hp]
      simpa [groupAccum, grouperOnNext] using h2

theorem assocFind_groupAccum_none {κ α : Type} [DecidableEq κ] :
    ∀ (l : List (κ × α)) (acc : List (κ × List α)) (k : κ),
      assocFind k acc = none →
      assocFind k (groupAccum l acc) =
        if (entriesFor k l).isEmpty then none else some (entriesFor k l)
  | [], acc, k, h => by simpa [groupAccum, entriesFor] using h
  | p :: rest, acc, k, h => by
    by_cases hp : p.1 = k
    · have h1 : assocFind k (groupUpsert acc p.1 p.2) = some [p.2] := by
        rw [hp, assocFind_upsert_self, h]
        rfl
      have h2 := assocFind_groupAccum_some rest (groupUpsert acc p.1 p.2) k [p.2] h1
      rw [entriesFor_cons_self k p rest hp]
      simp only [groupAccum, grouperOnNext]
      rw [h2]
      simp
    · have h1 : assocFind k (groupUpsert acc p.1 p.2) = none := by
        rw [assocFind_upsert_other acc p.1 k p.2 hp, h]
      have h2 := assocFind_groupAccum_none rest (groupUpsert acc p.1 p.2) k h1
      rw [entriesFor_cons_other k p rest hp]
      simpa [groupAccum, grouperOnNext] using h2

theorem assocFind_eq_none_iff {κ α : Type} [DecidableEq κ] (k : κ) :
    ∀ (acc : List (κ × List α)), assocFind k acc = none ↔ k ∉ acc.map Prod.fst
  | [] => by simp [assocFind]
  | (k0, v) :: rest => by
    by_cases h : k0 = k
    · subst h
      simp [assocFind]
    · simp only [assocFind, List.map_cons, List.mem_cons, not_or]
      rw [if_neg h, assocFind_eq_none_iff k rest]
      constructor
      · intro hn
        exact ⟨fun he => h he.symm, hn⟩
      · intro hn
        exact hn.2

theorem map_fst_upsert {κ α : Type} [DecidableEq κ] (k : κ) (a : α) :
    ∀ (acc : List (κ × List α)),
      (groupUpsert acc k a).map Prod.fst =
        if (assocFind k acc).isSome then acc.map Prod.fst else acc.map Prod.fst ++ [k]
  | [] => by simp [groupUpsert, assocFind]
  | (k0, v) :: rest => by
    by_cases h : k0 = k
    · subst h
      simp [groupUpsert, assocFind]
    · simp [groupUpsert, assocFind, h, map_fst_upsert k a rest]
      split
      · rfl
      · rfl

theorem nodup_keys_upsert {κ α : Type} [DecidableEq κ] (acc : List (κ × List α)) (k : κ)
    (a : α) (h : (acc.map Prod.fst).Nodup) : ((groupUpsert acc k a).map Prod.fst).Nodup := by
  rw [map_fst_upsert]
  by_cases hs : (assocFind k acc).isSome
  · simpa [hs] using h
  · have hn : assocFind (α := α) k acc = none := by
      cases hfind : assocFind (α := α) k acc
      · rfl
      · rw [hfind] at hs
        simp at hs
    have hk : k ∉ acc.map Prod.fst := (assocFind_eq_none_iff k acc).mp hn
    simp [hs, List.nodup_append, h, hk]

theorem nodup_keys_groupAccum {κ α : Type} [DecidableEq κ] :
    ∀ (l : List (κ × α)) (acc : List (κ × List α)),
      (acc.map Prod.fst).Nodup → ((groupAccum l acc).map Prod.fst).Nodup
  | [], _acc, h => h
  | p :: rest, acc, h =>
    nodup_keys_groupAccum rest (groupUpsert acc p.1 p.2) (nodup_keys_upsert acc p.1 p.2 h)

theorem mem_keys_groupAccum {κ α : Type} [DecidableEq κ] :
    ∀ (l : List (κ × α)) (acc : List (κ × List α)) (k : κ),
      k ∈ (groupAccum l acc).map Prod.fst ↔ k ∈ acc.map Prod.fst ∨ k ∈ l.map Prod.fst
  | [], _acc, k => by simp [groupAccum]
  | p :: rest, acc, k => by
    have ih := mem_keys_groupAccum rest (groupUpsert acc p.1 p.2) k
    simp only [groupAccum, grouperOnNext] at ih ⊢
    rw [ih, map_fst_upsert]
    by_cases hs : (assocFind p.1 acc).isSome
    · have hmem : p.1 ∈ acc.map Prod.fst := by
        by_contra hno
        rw [(assocFind_eq_none_iff p.1 acc).mpr hno] at hs
        simp at hs
      by_cases hk : k = p.1
      · subst hk
        simp [hs, hmem]
      · simp [hs, hk]
    · by_cases hk : k = p.1
      · subst hk
        simp [hs]
      · simp [hs, hk]

theorem assocFind_of_mem_nodup {κ α : Type} [DecidableEq κ] :
    ∀ (out : List (κ × List α)) (k : κ) (arr : List α),
      (out.map Prod.fst).Nodup → (k, arr) ∈ out → assocFind k out = some arr
  | [], k, arr, _, hmem => by simp at hmem
  | (k0, v) :: rest, k, arr, hnd, hmem => by
    have hnd2 : k0 ∉ rest.map Prod.fst ∧ (rest.map Prod.fst).Nodup :=
      List.nodup_cons.mp hnd
    rcases List.mem_cons.mp hmem with heq | htail
    · obtain ⟨hk, hv⟩ := Prod.ext_iff.mp heq
      simp only [assocFind]
      rw [if_pos hk.symm]
      simp only at hv
      rw [hv]
    · have hk0 : k0 ≠ k := by
        intro h
        subst h
        exact hnd2.1 (List.mem_map.mpr ⟨(k0, arr), htail, rfl⟩)
      simp only [assocFind]
      rw [if_neg hk0]
      exact assocFind_of_mem_nodup rest k arr hnd2.2 htail

theorem entriesFor_ne_nil_iff {κ α : Type} [DecidableEq κ] (k : κ) :
    ∀ (l : List (κ × α)), entriesFor k l ≠ [] ↔ k ∈ l.map Prod.fst
  | [] => by simp [entriesFor]
  | p :: rest => by
    by_cases hp : p.1 = k
    · rw [entriesFor_cons_self k p rest hp]
      simp [hp.symm]
    · rw [entriesFor_cons_other k p rest hp]
      rw [entriesFor_ne_nil_iff k rest]
      have hk : ¬ k = p.1 := fun he => hp he.symm
      simp [hk]

theorem groups_content (l : List (DevNameVer × EntryInfo)) (k : DevNameVer)
    (arr : List EntryInfo) (h : (k, arr) ∈ findPackagesGroup l) : arr = entriesFor k l := by
  have hnd : ((findPackagesGroup l).map Prod.fst).Nodup :=
    nodup_keys_groupAccum l [] (by simp)
  have hfind : assocFind k (findPackagesGroup l) = some arr :=
    assocFind_of_mem_nodup (findPackagesGroup l) k arr hnd h
  have hrun : assocFind k (findPackagesGroup l) =
      if (entriesFor k l).isEmpty then none else some (entriesFor k l) :=
    assocFind_groupAccum_none l [] k (by simp [assocFind])
  rw [hrun] at hfind
  by_cases he : (entriesFor k l).isEmpty = true
  · rw [if_pos he] at hfind
    exact absurd hfind (by simp)
  · rw [if_neg he] at hfind
    exact (Option.some_inj.mp hfind).symm

/-- C3: the streaming grouper emits nothing while entries are still
arriving; once the keyed stream completes it emits exactly one pair
per distinct key observed, and the array of each emitted pair holds
every entry seen for that key in arrival order. -/
theorem claimC3_streaming_grouper (l : List (DevNameVer × EntryInfo)) :
    (∀ (st : List (DevNameVer × List EntryInfo)) (p : DevNameVer × EntryInfo),
        (grouperOnNext st p).2 = []) ∧
    ((findPackagesGroup l).map Prod.fst).Nodup ∧
    (∀ k, k ∈ (findPackagesGroup l).map Prod.fst ↔ k ∈ l.map Prod.fst) ∧
    (∀ k arr, (k, arr) ∈ findPackagesGroup l → arr = entriesFor k l) := by
  refine ⟨fun st p => rfl, nodup_keys_groupAccum l [] (by simp), fun k => ?_, groups_content l⟩
  have h := mem_keys_groupAccum l [] k
  simpa [findPackagesGroup] using h

/-! ## Lemmas connecting key extraction and grouping -/

theorem mem_entriesFor {κ α : Type} [DecidableEq κ] (k : κ) (l : List (κ × α)) (p : κ × α)
    (hp : p ∈ l) (hk : p.1 = k) : p.2 ∈ entriesFor k l :=
  List.mem_map.mpr ⟨p, List.mem_filter.mpr ⟨hp, by simp [hk]⟩, rfl⟩

theorem of_mem_entriesFor {κ α : Type} [DecidableEq κ] (k : κ) (l : List (κ × α)) (x : α)
    (h : x ∈ entriesFor k l) : ∃ p, p ∈ l ∧ p.1 = k ∧ p.2 = x := by
  obtain ⟨p, hp, hpx⟩ := List.mem_map.mp h
  have hf := List.mem_filter.mp hp
  exact ⟨p, hf.1, of_decide_eq_true hf.2, hpx⟩

theorem emitted_key_dev :
    ∀ (input : List (EntryInfo × ReadJsonResult)) (d : EiDN),
      d ∈ (extractRun input).emitted →
      ∀ k, d.devNameVer = some k → k.dev = d.entryInfo.statDev
  | [], d, hmem, _, _ => by simp [extractRun] at hmem
  | (ei, ReadJsonResult.ioError) :: _, d, hmem, _, _ => by
    simp [extractRun] at hmem
  | (ei, ReadJsonResult.parsed pack) :: rest, d, hmem, k, hk => by
    simp only [extractRun] at hmem
    by_cases hs : (mkEiDN ei pack).devNameVer.isSome
    · rw [if_pos hs] at hmem
      rcases List.mem_cons.mp hmem with heq | htail
      · subst heq
        have hent : (mkEiDN ei pack).entryInfo = ei := rfl
        rw [hent]
        cases pack with
        | none => simp [mkEiDN] at hk
        | some p =>
          have hk2 : (if (jsTruthy p.name && jsTruthy p.version) = true then
              some (DevNameVer.mk ei.statDev (p.name.getD emptyStr) (p.version.getD emptyStr))
            else none) = some k := hk
          by_cases ht : (jsTruthy p.name && jsTruthy p.version) = true
          · rw [if_pos ht] at hk2
            have hkk := Option.some_inj.mp hk2
            rw [← hkk]
          · rw [if_neg ht] at hk2
            exact absurd hk2 (by simp)
      · exact emitted_key_dev rest d htail k hk
    · rw [if_neg hs] at hmem
      exact emitted_key_dev rest d hmem k hk

theorem keyed_dev (input : List (EntryInfo × ReadJsonResult)) :
    ∀ p ∈ keyedEntries (extractRun input).emitted, p.1.dev = p.2.statDev := by
  intro p hp
  obtain ⟨d, hd, hmap⟩ := List.mem_filterMap.mp hp
  obtain ⟨k, hk, hkp⟩ := Option.map_eq_some'.mp hmap
  have hdev := emitted_key_dev input d hd k hk
  rw [← hkp]
  simpa using hdev

/-- C2: two scanned entries passing key extraction with equal
(deviceId, name, version) land in the same group, and two entries with
equal name and version but different deviceId never land in the same
group, because the correlation key is built from all three components
and the key of every keyed entry carries the stat device of that
entry. -/
theorem claimC2_key_separation (input : List (EntryInfo × ReadJsonResult))
    (a b : DevNameVer × EntryInfo)
    (ha : a ∈ keyedEntries (extractRun input).emitted)
    (hb : b ∈ keyedEntries (extractRun input).emitted) :
    (a.1 = b.1 →
      ∃ arr, (a.1, arr) ∈ scanPipelineGroups input ∧ a.2 ∈ arr ∧ b.2 ∈ arr) ∧
    (a.1.name = b.1.name → a.1.version = b.1.version → a.1.dev ≠ b.1.dev →
      ∀ k arr, (k, arr) ∈ scanPipelineGroups input → ¬ (a.2 ∈ arr ∧ b.2 ∈ arr)) := by
  have hout : scanPipelineGroups input =
      findPackagesGroup (keyedEntries (extractRun input).emitted) := rfl
  constructor
  · intro hab
    set keyed := keyedEntries (extractRun input).emitted with hkeyed
    have hkeymem : a.1 ∈ keyed.map Prod.fst := List.mem_map.mpr ⟨a, ha, rfl⟩
    have hmemout : a.1 ∈ (findPackagesGroup keyed).map Prod.fst := by
      have h := mem_keys_groupAccum keyed [] a.1
      rw [findPackagesGroup, h]
      simpa using hkeymem
    obtain ⟨⟨k1, arr1⟩, hpr, hfst⟩ := List.mem_map.mp hmemout
    have hfst2 : k1 = a.1 := hfst
    subst hfst2
    have hpair : (a.1, arr1) ∈ findPackagesGroup keyed := hpr
    have hcontent : arr1 = entriesFor a.1 keyed :=
      groups_content keyed a.1 arr1 hpair
    refine ⟨arr1, by rw [hout]; exact hpair, ?_, ?_⟩
    · rw [hcontent]
      exact mem_entriesFor a.1 keyed a ha rfl
    · rw [hcontent]
      exact mem_entriesFor a.1 keyed b hb hab.symm
  · intro _ _ hdev k arr hmem hboth
    set keyed := keyedEntries (extractRun input).emitted with hkeyed
    rw [hout] at hmem
    have harr : arr = entriesFor k keyed := groups_content keyed k arr hmem
    obtain ⟨p, hp, hpk, hpa⟩ := of_mem_entriesFor k keyed a.2 (harr ▸ hboth.1)
    obtain ⟨q, hq, hqk, hqb⟩ := of_mem_entriesFor k keyed b.2 (harr ▸ hboth.2)
    have h1 : k.dev = a.2.statDev := by
      rw [← hpk, keyed_dev input p hp, hpa]
    have h2 : k.dev = b.2.statDev := by
      rw [← hqk, keyed_dev input q hq, hqb]
    have h3 : a.1.dev = a.2.statDev := keyed_dev input a ha
    have h4 : b.1.dev = b.2.statDev := keyed_dev input b hb
    exact hdev (by rw [h3, ← h1, h2, ← h4])

/-! ## Claim C1: the directory descent filter -/

/-- Name component of the C1 counterexample directory. -/
def cexC1Name : String := "sub"

/-- Parent component of the C1 counterexample directory: the parent
path contains "node_modules" as a substring but not as a segment. -/
def cexC1Dir : String := "/x/my_node_modules"

/-- The C1 counterexample directory entry. -/
def cexC1 : DirEntryInfo := { name := cexC1Name, fullParentDir := cexC1Dir }

/-- C1 counterexample: the claim describes the filter with a
node_modules SEGMENT test on the parent path, but the code tests
substring containment (indexOf).  For a directory named sub whose
parent is /x/my_node_modules the claimed predicate accepts (there is
no node_modules segment) while the code rejects (the substring is
present and the parent directory name is not node_modules). -/
theorem claimC1_counterexample :
    filterDirsNodeModPacks cexC1 = false ∧ claimC1Keeps cexC1 = true := by decide

/-- C1 amended: the descent filter accepts a directory if and only if
its name does not start with a dot, and either its name is exactly
node_modules, or its parent path contains "node_modules" as a
substring and the parent directory name is node_modules, or its parent
path does not contain "node_modules" as a substring at all. -/
theorem claimC1_descent_filter (ei : DirEntryInfo) :
    filterDirsNodeModPacks ei = true ↔
      (startsWithDot ei.name = false ∧
        (ei.name = nmStr ∨
          (hasNodeModSub ei.fullParentDir = true ∧
            pathBasename ei.fullParentDir = nmStr) ∨
          hasNodeModSub ei.fullParentDir = false)) := by
  by_cases h1 : startsWithDot ei.name = true
  · simp [filterDirsNodeModPacks, h1]
  · have h1f : startsWithDot ei.name = false := by
      simpa using h1
    by_cases h2 : ei.name = nmStr
    · simp [filterDirsNodeModPacks, h1f, h2]
    · by_cases h3 : hasNodeModSub ei.fullParentDir = true
      · simp [filterDirsNodeModPacks, h1f, h2, h3]
      · have h3f : hasNodeModSub ei.fullParentDir = false := by
          simpa using h3
        simp [filterDirsNodeModPacks, h1f, h2, h3f]

/-! ## Witness for claim C2 -/

/-- Manifest path of the first witness entry. -/
def wPathA : String := "/a/node_modules/p/package.json"

/-- Parent directory of the first witness entry. -/
def wDirA : String := "/a/node_modules/p"

/-- Manifest path of the second witness entry. -/
def wPathB : String := "/b/node_modules/p/package.json"

/-- Parent directory of the second witness entry. -/
def wDirB : String := "/b/node_modules/p"

/-- Package name shared by the witness entries. -/
def wName : String := "p"

/-- Package version shared by the witness entries. -/
def wVer : String := "1.0.0"

/-- First witness entry, on device 1. -/
def wEiA : EntryInfo := { fullPath := wPathA, fullParentDir := wDirA, statDev := 1 }

/-- Second witness entry, also on device 1. -/
def wEiB : EntryInfo := { fullPath := wPathB, fullParentDir := wDirB, statDev := 1 }

/-- The parsed manifest shared by the witness entries. -/
def wPack : PackJson := { name := some wName, version := some wVer }

/-- The correlation key of both witness entries. -/
def wKey : DevNameVer := { dev := 1, name := wName, version := wVer }

/-- The two entry witness scan input. -/
def wInputC2 : List (EntryInfo × ReadJsonResult) :=
  [(wEiA, ReadJsonResult.parsed (some wPack)), (wEiB, ReadJsonResult.parsed (some wPack))]

/-- Witness for C2: on a concrete two entry scan sharing one key, both
entries land in one group. -/
theorem claimC2_key_separation_witness :
    ∃ arr, (wKey, arr) ∈ scanPipelineGroups wInputC2 ∧ wEiA ∈ arr ∧ wEiB ∈ arr :=
  (claimC2_key_separation wInputC2 (wKey, wEiA) (wKey, wEiB) (by decide) (by decide)).1 rfl

/-! ## Claim C6: the post filter on the grandparent directory -/

theorem stripLead_eq_some {α : Type} [DecidableEq α] :
    ∀ (n l m : List α), stripLead n l = some m ↔ l = n ++ m
  | [], l, m => by simp [stripLead]
  | a :: as, [], m => by simp [stripLead]
  | a :: as, b :: bs, m => by
    by_cases h : a = b
    · subst h
      simp [stripLead, stripLead_eq_some as bs m]
    · have h2 : ¬ b = a := fun he => h he.symm
      simp [stripLead, h, h2]

theorem takeWhile_of_all_append {α : Type} (p : α → Bool) :
    ∀ (n : List α) (c : α) (rest : List α), (∀ x ∈ n, p x = true) → p c = false →
      (n ++ c :: rest).takeWhile p = n
  | [], c, rest, _, hc => by
    simp only [List.nil_append]
    exact List.takeWhile_cons_of_neg (by simp [hc])
  | a :: as, c, rest, hn, hc => by
    have ha : p a = true := hn a (by simp)
    rw [List.cons_append, List.takeWhile_cons_of_pos ha,
      takeWhile_of_all_append p as c rest (fun x hx => hn x (by simp [hx])) hc]

theorem dropWhile_head_false {α : Type} (p : α → Bool) :
    ∀ (l : List α) (c : α) (rest : List α), l.dropWhile p = c :: rest → p c = false
  | [], c, rest, h => by simp [List.dropWhile] at h
  | a :: l, c, rest, h => by
    by_cases ha : p a = true
    · rw [List.dropWhile_cons_of_pos ha] at h
      exact dropWhile_head_false p l c rest h
    · rw [List.dropWhile_cons_of_neg ha] at h
      have hac : a = c := (List.cons.injEq .. ▸ h).1
      subst hac
      simpa using ha

theorem nmChars_all_notSlash : ∀ x ∈ nmChars.reverse, notSlash x = true := by decide

theorem notSlash_eq_false_iff (c : Char) : notSlash c = false ↔ c = '/' := by
  simp [notSlash]

/-- Core equivalence behind C6: for a string that contains a slash and
no backslash, the ENDS_NODE_MOD_RE test succeeds exactly when the
POSIX basename of the string is node_modules. -/
theorem endsNodeMod_iff_basename (t : String) (hsl : ('/' : Char) ∈ t.data)
    (hnb : ('\\' : Char) ∉ t.data) :
    endsNodeMod t = true ↔ pathBasename t = nmStr := by
  constructor
  · intro h
    cases hsr : stripLead nmChars.reverse t.data.reverse with
    | none => rw [endsNodeMod, hsr] at h; simp at h
    | some m =>
      cases m with
      | nil => rw [endsNodeMod, hsr] at h; simp at h
      | cons c rest =>
        rw [endsNodeMod, hsr] at h
        have hre : isReSep c = true := h
        have heq : t.data.reverse = nmChars.reverse ++ c :: rest :=
          (stripLead_eq_some nmChars.reverse t.data.reverse (c :: rest)).mp hsr
        have hcmem : c ∈ t.data := by
          rw [← List.mem_reverse, heq]
          simp
        have hor : c = '/' ∨ c = '\\' := by
          simpa [isReSep] using hre
        have hcslash : c = '/' := by
          rcases hor with h1 | h2
          · exact h1
          · exact absurd (h2 ▸ hcmem) hnb
        have htake : t.data.reverse.takeWhile notSlash = nmChars.reverse := by
          rw [heq]
          exact takeWhile_of_all_append notSlash nmChars.reverse c rest nmChars_all_notSlash
            (by rw [hcslash]; decide)
        rw [pathBasename, htake, List.reverse_reverse]
        rfl
  · intro h
    have htake : t.data.reverse.takeWhile notSlash = nmChars.reverse := by
      have hdata : (t.data.reverse.takeWhile notSlash).reverse = nmChars := congrArg String.data h
      rw [← hdata, List.reverse_reverse]
    have hdrop : t.data.reverse.dropWhile notSlash ≠ [] := by
      intro hnil
      have hall := List.dropWhile_eq_nil_iff.mp hnil
      have := hall '/' (List.mem_reverse.mpr hsl)
      simp [notSlash] at this
    cases hd : t.data.reverse.dropWhile notSlash with
    | nil => exact absurd hd hdrop
    | cons c rest =>
      have hcf : notSlash c = false := dropWhile_head_false notSlash t.data.reverse c rest hd
      have hcslash : c = '/' := (notSlash_eq_false_iff c).mp hcf
      have heq : t.data.reverse = nmChars.reverse ++ c :: rest := by
        have hsplit := List.takeWhile_append_dropWhile (p := notSlash) (l := t.data.reverse)
        rw [htake, hd] at hsplit
        exact hsplit.symm
      have hstrip : stripLead nmChars.reverse t.data.reverse = some (c :: rest) :=
        (stripLead_eq_some nmChars.reverse t.data.reverse (c :: rest)).mpr heq
      rw [endsNodeMod, hstrip]
      show isReSep c = true
      rw [hcslash]
      decide

theorem pathDirname_props (s : String) (habs : s.data.head? = some '/') :
    ('/' : Char) ∈ (pathDirname s).data ∧
      ∀ x ∈ (pathDirname s).data, x ∈ s.data ∨ x = '/' := by
  have hmem : ('/' : Char) ∈ s.data := by
    cases hsd : s.data with
    | nil => rw [hsd] at habs; simp at habs
    | cons a l =>
      rw [hsd] at habs
      have ha : a = '/' := by simpa using habs
      rw [ha]
      simp
  cases hd : s.data.reverse.dropWhile notSlash with
  | nil =>
    exfalso
    have hall := List.dropWhile_eq_nil_iff.mp hd
    have := hall '/' (List.mem_reverse.mpr hmem)
    simp [notSlash] at this
  | cons c pre =>
    by_cases hpre : pre = []
    · have hds : pathDirname s = slashStr := by
        rw [pathDirname, hd]
        show (if pre = [] then slashStr else String.mk pre.reverse) = slashStr
        rw [if_pos hpre]
      rw [hds]
      refine ⟨by decide, ?_⟩
      intro x hx
      right
      have hxs : x ∈ [('/' : Char)] := hx
      simpa using hxs
    · have hds : pathDirname s = String.mk pre.reverse := by
        rw [pathDirname, hd]
        show (if pre = [] then slashStr else String.mk pre.reverse) = String.mk pre.reverse
        rw [if_neg hpre]
      rw [hds]
      have hsplit := List.takeWhile_append_dropWhile (p := notSlash) (l := s.data.reverse)
      rw [hd] at hsplit
      have hsdata : s.data =
          pre.reverse ++ c :: (s.data.reverse.takeWhile notSlash).reverse := by
        have h2 : (List.takeWhile notSlash s.data.reverse ++ c :: pre).reverse = s.data := by
          rw [hsplit, List.reverse_reverse]
        conv_lhs => rw [← h2]
        simp [List.reverse_append]
      have hsub : ∀ x ∈ pre.reverse, x ∈ s.data := by
        intro x hx
        rw [hsdata]
        exact List.mem_append.mpr (Or.inl hx)
      cases hpr : pre.reverse with
      | nil =>
        exfalso
        have h4 : pre = [] := by
          have h3 := congrArg List.reverse hpr
          rw [List.reverse_reverse] at h3
          simpa using h3
        exact hpre h4
      | cons y ys =>
        have hy : y = '/' := by
          have h1 : s.data.head? = some y := by
            rw [hsdata, hpr]
            rfl
          rw [habs] at h1
          exact (Option.some_inj.mp h1).symm
        constructor
        · show ('/' : Char) ∈ y :: ys
          rw [← hy]
          simp
        · intro x hx
          left
          refine hsub x ?_
          rw [hpr]
          exact hx

/-- C6: a file entry yielded by the walk (rooted at an absolute,
backslash free POSIX path, as the CLI always resolves its roots) is
kept by the post filter exactly when the parent of its immediate
parent directory is itself named node_modules. -/
theorem claimC6_post_filter (ei : EntryInfo)
    (habs : ei.fullParentDir.data.head? = some '/')
    (hnb : ('\\' : Char) ∉ ei.fullParentDir.data) :
    postFilterKeeps ei = true ↔
      pathBasename (pathDirname ei.fullParentDir) = nmStr := by
  have hprops := pathDirname_props ei.fullParentDir habs
  have hnb2 : ('\\' : Char) ∉ (pathDirname ei.fullParentDir).data := by
    intro hx
    rcases hprops.2 _ hx with h1 | h2
    · exact hnb h1
    · exact absurd h2 (by decide)
  exact endsNodeMod_iff_basename (pathDirname ei.fullParentDir) hprops.1 hnb2

/-- Manifest path of the C6 witness entry. -/
def wC6Path : String := "/a/node_modules/p/package.json"

/-- Parent directory of the C6 witness entry, one level below a
node_modules directory. -/
def wC6Dir : String := "/a/node_modules/p"

/-- The C6 witness entry. -/
def wC6Ei : EntryInfo := { fullPath := wC6Path, fullParentDir := wC6Dir, statDev := 1 }

/-- Witness for C6: a manifest directly one level below node_modules
passes the post filter. -/
theorem claimC6_post_filter_witness : postFilterKeeps wC6Ei = true :=
  (claimC6_post_filter wC6Ei (by decide) (by decide)).mpr (by decide)

/-! ## Claim C4: writing back the reference store -/

/-- C4 as stated: the refs file is written back exactly when the store
CONTENT differs from what was loaded.  Written from the words of the
claim, for comparison with finalTasksWrite. -/
def claimC4AsStated : Prop :=
  ∀ s : RunEnv, s.dryrun = false → s.genLnCmds = false →
    ((finalTasksWrite s).isSome ↔
      s.existingShares.content ≠ s.origExistingShares.content)

/-- The C4 counterexample state: the current store is a fresh object
(different identity) holding exactly the loaded content. -/
def cexC4Env : RunEnv :=
  { dryrun := false
    genLnCmds := false
    existingShares := { ref := 1, content := [] }
    origExistingShares := { ref := 0, content := [] }
    savedByteCount := 0 }

/-- C4 counterexample: the code compares the store objects with !==,
an identity comparison, not a content comparison.  When the run ends
with a fresh store object of unchanged content (for example a prune
pass that dropped nothing but rebuilt the object), the file is written
even though the content equals what was loaded. -/
theorem claimC4_counterexample : ¬ claimC4AsStated := by
  intro h
  have h2 := (h cexC4Env rfl rfl).mp (by decide)
  exact h2 rfl

/-- C4 amended: at the end of a non dry run invocation, the refs file
is written back if and only if the in memory store is a different
OBJECT from the one loaded at start (identity, not content,
comparison), and whatever is written is the current store content with
its keys sorted. -/
theorem claimC4_store_write (s : RunEnv) (hd : s.dryrun = false) (hg : s.genLnCmds = false) :
    ((finalTasksWrite s).isSome ↔ s.existingShares.ref ≠ s.origExistingShares.ref) ∧
      ∀ w, finalTasksWrite s = some w →
        w = sortObjKeys s.existingShares.content ∧
          List.Sorted (fun a b => a ≤ b) (w.map Prod.fst) := by
  constructor
  · by_cases hr : s.existingShares.ref ≠ s.origExistingShares.ref
    · simp [finalTasksWrite, hd, hg, hr]
    · simp [finalTasksWrite, hd, hg, hr]
  · intro w hw
    simp only [finalTasksWrite, hd, hg, Bool.or_self, Bool.false_or, if_false] at hw
    by_cases hr : s.existingShares.ref ≠ s.origExistingShares.ref
    · rw [if_pos hr] at hw
      have hww : w = sortObjKeys s.existingShares.content := (Option.some_inj.mp hw).symm
      refine ⟨hww, ?_⟩
      rw [hww, sortObjKeys]
      have hs := List.sorted_insertionSort keyLe s.existingShares.content
      exact List.pairwise_map.mpr hs
    · rw [if_neg hr] at hw
      exact absurd hw (by simp)

/-- The C4 witness state: a non dry run whose store object identity
changed. -/
def wC4Env : RunEnv :=
  { dryrun := false
    genLnCmds := false
    existingShares := { ref := 3, content := [] }
    origExistingShares := { ref := 2, content := [] }
    savedByteCount := 0 }

/-- Witness for the amended C4: the write fires on a concrete state
whose store object identity changed. -/
theorem claimC4_store_write_witness : (finalTasksWrite wC4Env).isSome = true := by
  have h := (claimC4_store_write wC4Env rfl rfl).1
  exact h.mpr (by decide)

/-! ## Claim C5: soft errors during key extraction -/

/-- C5 as stated claims a failed manifest READ is silently discarded
with the scan continuing, which would make the run on an ioError entry
agree with the run without it.  Written from the words of the claim. -/
def claimC5AsStated : Prop :=
  ∀ (ei : EntryInfo) (rest : List (EntryInfo × ReadJsonResult)),
    extractRun ((ei, ReadJsonResult.ioError) :: rest) = extractRun rest

/-- Entry whose manifest read fails in the C5 counterexample. -/
def cexC5Bad : EntryInfo :=
  { fullPath := wC6Path, fullParentDir := wC6Dir, statDev := 1 }

/-- Healthy entry following the failed read in the C5 counterexample. -/
def cexC5Good : EntryInfo :=
  { fullPath := wC6Path, fullParentDir := wC6Dir, statDev := 2 }

/-- Manifest of the healthy C5 counterexample entry. -/
def cexC5Pack : PackJson := { name := some wName, version := some wVer }

/-- C5 counterexample: readJsonAsync with throws false suppresses only
JSON parse errors; a read I/O failure rejects the promise, which
errors the observable chain instead of silently skipping the entry, so
the run with a failed read does not equal the run without it. -/
theorem claimC5_counterexample : ¬ claimC5AsStated := by
  intro h
  have h2 := h cexC5Bad [(cexC5Good, ReadJsonResult.parsed (some cexC5Pack))]
  exact absurd h2 (by decide)

/-- The selection C5 describes for entries whose read succeeded,
written from the words of the claim and the spec: drop a candidate
whose manifest failed to parse or lacks a usable name or version, keep
the rest keyed by the stat device with the manifest name and
version. -/
def specSelect (p : EntryInfo × ReadJsonResult) : Option EiDN :=
  match p.2 with
  | ReadJsonResult.ioError => none
  | ReadJsonResult.parsed none => none
  | ReadJsonResult.parsed (some pk) =>
    match pk.name, pk.version with
    | some n, some v =>
      if n = emptyStr ∨ v = emptyStr then none
      else
        some { entryInfo := p.1
               devNameVer := some { dev := p.1.statDev, name := n, version := v } }
    | some _, none => none
    | none, some _ => none
    | none, none => none

theorem specSelect_eq_mkEiDN (ei : EntryInfo) (pack : Option PackJson) :
    specSelect (ei, ReadJsonResult.parsed pack) =
      (if (mkEiDN ei pack).devNameVer.isSome then some (mkEiDN ei pack) else none) := by
  cases pack with
  | none => simp [specSelect, mkEiDN]
  | some pk =>
    cases hn : pk.name with
    | none =>
      cases hv : pk.version with
      | none => simp [specSelect, mkEiDN, jsTruthy, hn, hv]
      | some v => simp [specSelect, mkEiDN, jsTruthy, hn, hv]
    | some n =>
      cases hv : pk.version with
      | none => simp [specSelect, mkEiDN, jsTruthy, hn, hv]
      | some v =>
        by_cases hne : n = emptyStr
        · simp [specSelect, mkEiDN, jsTruthy, hn, hv, hne]
        · by_cases hve : v = emptyStr
          · simp [specSelect, mkEiDN, jsTruthy, hn, hv, hne, hve]
          · simp [specSelect, mkEiDN, jsTruthy, hn, hv, hne, hve]

/-- C5 amended: when no manifest read suffers an I/O failure the scan
ends without error; the emitted entries are exactly the candidates
whose manifest parsed with usable name and version fields, each keyed
by (stat device, name, version); and the package counter equals the
number of emitted entries.  An I/O read failure, by the
counterexample, instead errors the scan. -/
theorem claimC5_soft_errors :
    ∀ (input : List (EntryInfo × ReadJsonResult)),
      (∀ p ∈ input, p.2 ≠ ReadJsonResult.ioError) →
      (extractRun input).errored = false ∧
      (extractRun input).emitted = input.filterMap specSelect ∧
      (extractRun input).packageCount = (extractRun input).emitted.length
  | [], _ => ⟨rfl, rfl, rfl⟩
  | (ei, r) :: rest, h => by
    cases r with
    | ioError =>
      have hbad := h (ei, ReadJsonResult.ioError) (by simp)
      simp at hbad
    | parsed pack =>
      have ih := claimC5_soft_errors rest (fun p hp => h p (by simp [hp]))
      have hsel := specSelect_eq_mkEiDN ei pack
      by_cases hs : (mkEiDN ei pack).devNameVer.isSome
      · simp only [extractRun, if_pos hs]
        refine ⟨ih.1, ?_, ?_⟩
        · rw [List.filterMap_cons, hsel, if_pos hs]
          simp [ih.2.1]
        · simp [ih.2.2]
      · simp only [extractRun, if_neg hs]
        refine ⟨ih.1, ?_, ih.2.2⟩
        rw [List.filterMap_cons, hsel, if_neg hs]
        exact ih.2.1

/-- The C5 witness input: one parse failure, one manifest missing its
version, one healthy manifest. -/
def wC5In : List (EntryInfo × ReadJsonResult) :=
  [(cexC5Bad, ReadJsonResult.parsed none),
   (cexC5Good, ReadJsonResult.parsed (some { name := some wName, version := none })),
   (cexC5Good, ReadJsonResult.parsed (some cexC5Pack))]

/-- Witness for the amended C5 on a concrete error free input. -/
theorem claimC5_soft_errors_witness :
    (extractRun wC5In).errored = false ∧
    (extractRun wC5In).emitted = wC5In.filterMap specSelect ∧
    (extractRun wC5In).packageCount = (extractRun wC5In).emitted.length :=
  claimC5_soft_errors wC5In (by decide)

/-! ## Claim C7: dry run and generate commands modes -/

/-- C7 as stated: a dry run (or gen-ln-cmds) invocation performs no
filesystem mutation at all.  Written from the words of the claim. -/
def claimC7AsStated : Prop :=
  ∀ (s : RunEnv) (linkPhase : FsState → FsState) (fs0 : FsState),
    (s.dryrun || s.genLnCmds) = true → cliRunFs s linkPhase fs0 = fs0

/-- The C7 counterexample run state: a dry run. -/
def cexC7Env : RunEnv :=
  { dryrun := true
    genLnCmds := false
    existingShares := { ref := 0, content := [] }
    origExistingShares := { ref := 0, content := [] }
    savedByteCount := 0 }

/-- C7 counterexample: fs.ensureFileSync(REFS_PATH) runs
unconditionally at startup, before any mode check; a dry run starting
with no refs file on disk creates an empty one, a filesystem
mutation. -/
theorem claimC7_counterexample : ¬ claimC7AsStated := by
  intro h
  have h2 := h cexC7Env id FsState.missing rfl
  exact absurd h2 (by decide)

/-- C7 amended: in dry run or gen-ln-cmds mode the whole invocation
leaves the filesystem exactly as ensureFileSync left it at startup —
finalTasks never writes the refs file and the link phase performs no
mutation — so the only possible mutation is the startup creation of an
empty refs file when none exists; an invocation finding the refs file
already present mutates nothing. -/
theorem claimC7_dry_run (s : RunEnv) (linkPhase : FsState → FsState) (fs0 : FsState)
    (h : (s.dryrun || s.genLnCmds) = true) :
    cliRunFs s linkPhase fs0 = ensureFileSync fs0 := by
  simp [cliRunFs, applyFinalTasks, finalTasksWrite, h]

/-- The C7 witness run state: gen-ln-cmds mode. -/
def wC7Env : RunEnv :=
  { dryrun := false
    genLnCmds := true
    existingShares := { ref := 1, content := [] }
    origExistingShares := { ref := 0, content := [] }
    savedByteCount := 7 }

/-- The C7 witness filesystem: the refs file already exists. -/
def wC7Fs : FsState := FsState.filePresent none

/-- Witness for the amended C7: a gen-ln-cmds run over an existing
refs file leaves the filesystem exactly as startup left it. -/
theorem claimC7_dry_run_witness : cliRunFs wC7Env id wC7Fs = ensureFileSync wC7Fs :=
  claimC7_dry_run wC7Env id wC7Fs rfl

/-! ## Claim C8: cancellation of the scan -/

theorem scanSurvivors_cancel_after :
    ∀ (pre post : List ScanEvent), (∀ e ∈ pre, isCancelEvt e = false) →
      scanSurvivors (pre ++ ScanEvent.cancelSignal :: post) = scanSurvivors pre
  | [], _, _ => rfl
  | e :: pre2, post, h => by
    cases e with
    | cancelSignal =>
      have hbad := h ScanEvent.cancelSignal (by simp)
      simp [isCancelEvt] at hbad
    | entry ei r =>
      have hrec := scanSurvivors_cancel_after pre2 post (fun x hx => h x (by simp [hx]))
      show scanSurvivors (ScanEvent.entry ei r :: (pre2 ++ ScanEvent.cancelSignal :: post)) =
        scanSurvivors (ScanEvent.entry ei r :: pre2)
      rw [scanSurvivors, scanSurvivors, hrec]

/-- C8: once the cancellation signal fires the scanner processes no
further entry — the survivors of a trace cancelling after an entry
prefix are exactly that prefix, so work dispatched before the signal
completes and nothing after it is touched — and (per the spec
modelled consumer of the grouped stream) a cancelled run flushes no
groups at all, acting on no partial data. -/
theorem claimC8_cancellation (pre post : List ScanEvent)
    (h : ∀ e ∈ pre, isCancelEvt e = false) :
    scanSurvivors (pre ++ ScanEvent.cancelSignal :: post) = scanSurvivors pre ∧
    runGroupsAfterCancel (pre ++ ScanEvent.cancelSignal :: post) = [] := by
  refine ⟨scanSurvivors_cancel_after pre post h, ?_⟩
  simp [runGroupsAfterCancel, isCancelEvt]

/-- Entry of the C8 witness trace processed before cancellation. -/
def wC8Ei : EntryInfo := { fullPath := wC6Path, fullParentDir := wC6Dir, statDev := 5 }

/-- Entry of the C8 witness trace arriving after cancellation. -/
def wC8Ei2 : EntryInfo := { fullPath := wC6Path, fullParentDir := wC6Dir, statDev := 6 }

/-- Manifest used by the C8 witness trace. -/
def wC8Pack : PackJson := { name := some wName, version := some wVer }

/-- Events before the cancellation signal in the C8 witness trace. -/
def wC8Pre : List ScanEvent :=
  [ScanEvent.entry wC8Ei (ReadJsonResult.parsed (some wC8Pack))]

/-- Events after the cancellation signal in the C8 witness trace. -/
def wC8Post : List ScanEvent :=
  [ScanEvent.entry wC8Ei2 (ReadJsonResult.parsed (some wC8Pack))]

/-- Witness for C8 on a concrete cancelled trace. -/
theorem claimC8_cancellation_witness :
    scanSurvivors (wC8Pre ++ ScanEvent.cancelSignal :: wC8Post) = scanSurvivors wC8Pre ∧
    runGroupsAfterCancel (wC8Pre ++ ScanEvent.cancelSignal :: wC8Post) = [] :=
  claimC8_cancellation wC8Pre wC8Post (by decide)

/-! ## Claim C9: the routines run at most once -/

/-- Invariant tying the R.once flags to the body run counters. -/
def onceInv (st : OnceState) : Prop :=
  (st.cancelCalled = false → st.cancelBodyRuns = 0) ∧ st.cancelBodyRuns ≤ 1 ∧
    (st.finalCalled = false → st.finalBodyRuns = 0) ∧ st.finalBodyRuns ≤ 1 ∧
    st.refsWrites ≤ st.finalBodyRuns

theorem onceInv_runCancel (st : OnceState) (h : onceInv st) : onceInv (runCancelOnce st) := by
  obtain ⟨h1, h2, h3, h4, h5⟩ := h
  by_cases hc : st.cancelCalled = true
  · rw [runCancelOnce, if_pos hc]
    exact ⟨h1, h2, h3, h4, h5⟩
  · have hcf : st.cancelCalled = false := by simpa using hc
    rw [runCancelOnce, if_neg (by simp [hcf])]
    refine ⟨?_, ?_, h3, h4, h5⟩
    · intro hfalse
      simp at hfalse
    · show st.cancelBodyRuns + 1 ≤ 1
      have h6 := h1 hcf
      omega

theorem onceInv_runFinal (env : RunEnv) (st : OnceState) (h : onceInv st) :
    onceInv (runFinalOnce env st) := by
  obtain ⟨h1, h2, h3, h4, h5⟩ := h
  by_cases hc : st.finalCalled = true
  · rw [runFinalOnce, if_pos hc]
    exact ⟨h1, h2, h3, h4, h5⟩
  · have hcf : st.finalCalled = false := by simpa using hc
    rw [runFinalOnce, if_neg (by simp [hcf])]
    refine ⟨h1, h2, ?_, ?_, ?_⟩
    · intro hfalse
      simp at hfalse
    · show st.finalBodyRuns + 1 ≤ 1
      have h6 := h3 hcf
      omega
    · show st.refsWrites + (if (finalTasksWrite env).isSome then 1 else 0) ≤
        st.finalBodyRuns + 1
      have h6 := h3 hcf
      split <;> omega

theorem onceInv_dispatch (env : RunEnv) (st : OnceState) (t : Trigger)
    (h : onceInv st) : onceInv (dispatchTrigger env st t) := by
  cases t with
  | sigint => exact onceInv_runCancel st h
  | sigterm => exact onceInv_runCancel st h
  | exitEvt => exact onceInv_runFinal env st h
  | tasksComplete => exact onceInv_runFinal env st h

theorem onceInv_foldl (env : RunEnv) :
    ∀ (l : List Trigger) (st : OnceState), onceInv st →
      onceInv (l.foldl (dispatchTrigger env) st)
  | [], _, h => h
  | t :: rest, st, h =>
    onceInv_foldl env rest (dispatchTrigger env st t) (onceInv_dispatch env st t h)

/-- C9: over any sequence of trigger firings (SIGINT, SIGTERM, the
EXIT event, completion of the task observable) the cancel body and the
finalTasks body each execute at most once, and hence the refs file is
written at most once per invocation. -/
theorem claimC9_at_most_once (env : RunEnv) (l : List Trigger) :
    (runTriggers env l).cancelBodyRuns ≤ 1 ∧
    (runTriggers env l).finalBodyRuns ≤ 1 ∧
    (runTriggers env l).refsWrites ≤ 1 := by
  have h := onceInv_foldl env l onceInit (by simp [onceInv, onceInit])
  exact ⟨h.2.1, h.2.2.2.1, le_trans h.2.2.2.2 h.2.2.2.1⟩

/-! ## Claim C10: falsy manifest fields -/

/-- C10: a manifest whose name or version is present but the empty
string is discarded exactly like one with the field missing: the entry
gets no correlation key, the extraction run emits nothing, counts
nothing and raises no error, and the entry reaches no group. -/
theorem claimC10_falsy_fields (ei : EntryInfo) (p : PackJson)
    (h : p.name = some emptyStr ∨ p.version = some emptyStr) :
    (mkEiDN ei (some p)).devNameVer = none ∧
    extractRun [(ei, ReadJsonResult.parsed (some p))] =
      { emitted := [], packageCount := 0, errored := false } ∧
    scanPipelineGroups [(ei, ReadJsonResult.parsed (some p))] = [] := by
  have hkey : (mkEiDN ei (some p)).devNameVer = none := by
    rcases h with h1 | h1
    · simp [mkEiDN, jsTruthy, h1]
    · simp [mkEiDN, jsTruthy, h1]
  refine ⟨hkey, ?_, ?_⟩
  · simp [extractRun, hkey]
  · simp [scanPipelineGroups, extractRun, hkey, keyedEntries, findPackagesGroup, groupAccum]

/-- The C10 witness entry. -/
def wC10Ei : EntryInfo := { fullPath := wC6Path, fullParentDir := wC6Dir, statDev := 9 }

/-- The C10 witness manifest: its name is present but empty. -/
def wC10Pack : PackJson := { name := some emptyStr, version := some wVer }

/-- Witness for C10 at a concrete manifest with an empty name. -/
theorem claimC10_falsy_fields_witness :
    (mkEiDN wC10Ei (some wC10Pack)).devNameVer = none ∧
    extractRun [(wC10Ei, ReadJsonResult.parsed (some wC10Pack))] =
      { emitted := [], packageCount := 0, errored := false } ∧
    scanPipelineGroups [(wC10Ei, ReadJsonResult.parsed (some wC10Pack))] = [] :=
  claimC10_falsy_fields wC10Ei wC10Pack (Or.inl rfl)

end Pkglink
